import Mathlib

/-!
Shallow embedding of the moving-average crossover computation of
`src/Completed/10. Panel Strategies.ipynb` (the "Signal Engine").

Price series are embedded as `List ℚ` of close prices; a column that may
hold missing values (pandas `NaN`) is a `List (Option ℚ)`, with `none`
standing for a missing value.  Missing values propagate through arithmetic
the way `NaN` does, and `cumprod` skips missing entries while leaving them
missing in the output, matching pandas' default `skipna=True`.

Panel (multi-asset) data is embedded as the list of groups that
`df.groupby("Ticker")` yields: a list of `(ticker, close-series)` pairs
with pairwise-distinct tickers.  The grouped column transforms of the
notebook (`groupby(...).pct_change()`, `groupby(...).cumprod()`) are
embedded as `applyGrouped`, which applies a series transform to each
ticker's rows and realigns the results to the original row positions.
-/

set_option autoImplicit false

namespace PanelStrategies

/-- `dfi.DlyClose.rolling(window=w).mean()`: at index `i` the mean of the
trailing `w`-sized slice ending at `i`; missing until `w` points are
available (pandas default `min_periods = window`). -/
def rollingMean (w : Nat) (xs : List ℚ) : List (Option ℚ) :=
  (List.range xs.length).map (fun i =>
    if i + 1 < w then none
    else some (((xs.take (i + 1)).drop (i + 1 - w)).sum / (w : ℚ)))

/-- Recurrence of `ewm(span=s, adjust=False).mean()` after the first point:
`y_i = (1 - a) * y_(i-1) + a * x_i`. -/
def ewmAux (a : ℚ) (prev : ℚ) : List ℚ → List ℚ
  | [] => []
  | x :: rest =>
      ((1 - a) * prev + a * x) :: ewmAux a ((1 - a) * prev + a * x) rest

/-- `dfi.DlyClose.ewm(span=s, adjust=False).mean()`: smoothing factor
`a = 2 / (s + 1)`, initialised from the first data point, defined at every
index. -/
def ewmMean (span : Nat) : List ℚ → List ℚ
  | [] => []
  | x :: rest => x :: ewmAux (2 / ((span : ℚ) + 1)) x rest

/-- `Series.pct_change()`: missing at index 0, `x_i / x_(i-1) - 1` after. -/
def pctChange : List ℚ → List (Option ℚ)
  | [] => []
  | x :: rest =>
      none :: List.zipWith (fun prev cur => some (cur / prev - 1)) (x :: rest) rest

/-- `Series.shift()`: missing at index 0, previous entry after. -/
def shiftCol {α : Type} : List α → List (Option α)
  | [] => []
  | x :: rest => none :: (x :: rest).dropLast.map some

/-- NaN-propagating product of two possibly missing values
(`df.Position * df.MarketDaily`). -/
def omul (a b : Option ℚ) : Option ℚ :=
  match a, b with
  | some x, some y => some (x * y)
  | _, _ => none

/-- `1 + column`, NaN-propagating. -/
def onePlus (xs : List (Option ℚ)) : List (Option ℚ) :=
  xs.map (Option.map (fun r => 1 + r))

/-- `column - 1`, NaN-propagating. -/
def minusOne (xs : List (Option ℚ)) : List (Option ℚ) :=
  xs.map (Option.map (fun r => r - 1))

/-- Running product with accumulator `acc`, skipping missing entries and
leaving them missing in the output. -/
def cumprodAux (acc : ℚ) : List (Option ℚ) → List (Option ℚ)
  | [] => []
  | none :: rest => none :: cumprodAux acc rest
  | some x :: rest => some (acc * x) :: cumprodAux (acc * x) rest

/-- `Series.cumprod()` with pandas' default `skipna=True`. -/
def cumprodSkipNA (xs : List (Option ℚ)) : List (Option ℚ) :=
  cumprodAux 1 xs

/-- First `np.where` of the Signal computation:
`np.where(FastMA > SlowMA, 1, -1)`.  A comparison against a missing value
is false in pandas/numpy, so any missing operand yields `-1`. -/
def rawSignal (fast slow : List (Option ℚ)) : List Int :=
  List.zipWith (fun f s =>
    match f, s with
    | some a, some b => if b < a then 1 else -1
    | _, _ => -1) fast slow

/-- Second `np.where` of the Signal computation:
`np.where(SlowMA.isna(), 0, Signal)`. -/
def zeroWhereNone (slow : List (Option ℚ)) (sig : List Int) : List Int :=
  List.zipWith (fun s v => match s with | none => 0 | some _ => v) slow sig

/-- The columns produced by the crossover computation (a dataframe
restricted to the columns the Signal Engine derives). -/
structure CrossoverOutput where
  close : List ℚ
  fastAvg : List (Option ℚ)
  slowAvg : List (Option ℚ)
  signal : List Int
  position : List (Option Int)
  deriving Repr, DecidableEq

/-- `calculate_sma(dfi, fast_window, slow_window)` from the notebook
(the unscrambled commented-out cell):
```
dfi["FastMA"] = dfi.DlyClose.rolling(window=fast_window).mean()
dfi["SlowMA"] = dfi.DlyClose.rolling(window=slow_window).mean()
dfi["Signal"] = np.where(dfi.FastMA > dfi.SlowMA, 1, -1)
dfi.Signal = np.where(dfi.SlowMA.isna(), 0, dfi.Signal)
dfi["Position"] = dfi.Signal.shift()
return dfi
``` -/
def calculate_sma (closes : List ℚ) (fast_window slow_window : Nat) :
    CrossoverOutput :=
  let fastMA := rollingMean fast_window closes
  let slowMA := rollingMean slow_window closes
  let signal := zeroWhereNone slowMA (rawSignal fastMA slowMA)
  { close := closes
    fastAvg := fastMA
    slowAvg := slowMA
    signal := signal
    position := shiftCol signal }

/-- The moving-average part of the EMA cell:
```
ema["FastEMA"] = ema.DlyClose.ewm(span=fast_window, adjust=False).mean()
ema["SlowEMA"] = ema.DlyClose.ewm(span=slow_window, adjust=False).mean()
ema["Signal"] = np.where(ema.FastEMA > ema.SlowEMA, 1, -1)
ema["Signal"] = np.where(ema.SlowEMA.isna(), 0, ema.Signal)
ema["Position"] = ema.Signal.shift()
``` -/
def calculate_ema (closes : List ℚ) (fast_window slow_window : Nat) :
    CrossoverOutput :=
  let fastEMA := (ewmMean fast_window closes).map some
  let slowEMA := (ewmMean slow_window closes).map some
  let signal := zeroWhereNone slowEMA (rawSignal fastEMA slowEMA)
  { close := closes
    fastAvg := fastEMA
    slowAvg := slowEMA
    signal := signal
    position := shiftCol signal }

/-- The spec's tagged average-kind variant. -/
inductive AverageKind | simple | exponential
  deriving Repr, DecidableEq

/-- The spec's `computeCrossover` contract realised by the notebook:
`calculate_sma` for the simple variant, the EMA cell for the exponential
variant. -/
def computeCrossover (closes : List ℚ) (fast_window slow_window : Nat) :
    AverageKind → CrossoverOutput
  | .simple => calculate_sma closes fast_window slow_window
  | .exponential => calculate_ema closes fast_window slow_window

/-- Position column cast from signal integers to rationals, as pandas does
implicitly when multiplying `Position * MarketDaily`. -/
def posQ (pos : List (Option Int)) : List (Option ℚ) :=
  pos.map (Option.map (fun z : Int => (z : ℚ)))

/-- Single-asset `StrategyDaily` / `StratRet` column:
`Position * MarketDaily`. -/
def stratDaily (out : CrossoverOutput) : List (Option ℚ) :=
  List.zipWith omul (posQ out.position) (pctChange out.close)

/-- Single-asset cumulative market return as compounded in the panel cell:
`(1 + MarketDaily).cumprod()` (no subtraction of 1). -/
def marketCum (closes : List ℚ) : List (Option ℚ) :=
  cumprodSkipNA (onePlus (pctChange closes))

/-- Single-asset cumulative strategy return as compounded in the panel
cell: `(1 + StrategyDaily).cumprod()` (no subtraction of 1). -/
def strategyCum (out : CrossoverOutput) : List (Option ℚ) :=
  cumprodSkipNA (onePlus (stratDaily out))

/-- `ema["Strategy"] = (1 + ema.StratRet).cumprod() - 1` from the EMA
cell: the exponential variant does subtract 1. -/
def emaStrategy (closes : List ℚ) (fast_window slow_window : Nat) :
    List (Option ℚ) :=
  minusOne (cumprodSkipNA (onePlus
    (stratDaily (calculate_ema closes fast_window slow_window))))

/-! ### Panel (multi-asset) data -/

/-- A panel as `df.groupby("Ticker")` partitions it: one `(ticker, close
series)` block per asset, tickers pairwise distinct. -/
abbrev Panel := List (String × List ℚ)

/-- Flatten blocks of per-ticker values into the rows of the concatenated
dataframe (`pd.concat(groups)` keeps each group's rows contiguous). -/
def flatRows {β : Type} (blocks : List (String × List β)) : List (String × β) :=
  blocks.flatMap (fun b => b.2.map (fun x => (b.1, x)))

/-- The values of ticker `t`'s rows, in order. -/
def valsOf {β : Type} (t : String) (rows : List (String × β)) : List β :=
  (rows.filter (fun r => r.1 == t)).map Prod.snd

/-- Walks the rows; for the row `r` after prefix `seen`, emits the entry of
`f` applied to `r`'s ticker's whole series at the position `r` occupies
within that ticker's rows. -/
def applyGroupedAux {β γ : Type} (f : List β → List γ) (d : γ)
    (all : List (String × β)) :
    List (String × β) → List (String × β) → List γ
  | _, [] => []
  | seen, r :: rest =>
      (f (valsOf r.1 all)).getD (valsOf r.1 seen).length d ::
        applyGroupedAux f d all (seen ++ [r]) rest

/-- `column.groupby(keys).transform`-style aligned application: apply the
series transform `f` to each ticker's values and place the results back at
the original row positions (the semantics of the notebook's
`df.groupby("Ticker").DlyClose.pct_change()` and
`(1 + col).groupby(df.Ticker).cumprod()`). -/
def applyGrouped {β γ : Type} (f : List β → List γ) (d : γ)
    (rows : List (String × β)) : List γ :=
  applyGroupedAux f d rows [] rows

/-- Ticker column of the concatenated panel dataframe. -/
def tickersOf (blocks : Panel) : List String :=
  (flatRows blocks).map Prod.fst

/-- Position column of the panel dataframe after
`groups.append(calculate_sma(group, fast, slow)); df = pd.concat(groups)`. -/
def panelPosition (blocks : Panel) (fast_window slow_window : Nat) :
    List (Option Int) :=
  (blocks.map (fun b => (calculate_sma b.2 fast_window slow_window).position)).flatten

/-- `df["MarketDaily"] = df.groupby("Ticker").DlyClose.pct_change()`. -/
def panelMarketDaily (blocks : Panel) : List (Option ℚ) :=
  applyGrouped pctChange none (flatRows blocks)

/-- `df["StrategyDaily"] = df.Position * df.MarketDaily` (row-wise, not
grouped). -/
def panelStrategyDaily (blocks : Panel) (fast_window slow_window : Nat) :
    List (Option ℚ) :=
  List.zipWith omul (posQ (panelPosition blocks fast_window slow_window))
    (panelMarketDaily blocks)

/-- `df["Market"] = (1 + df.MarketDaily).groupby(df.Ticker).cumprod()`. -/
def panelMarket (blocks : Panel) : List (Option ℚ) :=
  applyGrouped cumprodSkipNA none
    ((tickersOf blocks).zip (onePlus (panelMarketDaily blocks)))

/-- `df["Strategy"] = (1 + df.StrategyDaily).groupby(df.Ticker).cumprod()`. -/
def panelStrategy (blocks : Panel) (fast_window slow_window : Nat) :
    List (Option ℚ) :=
  applyGrouped cumprodSkipNA none
    ((tickersOf blocks).zip
      (onePlus (panelStrategyDaily blocks fast_window slow_window)))

/-! ### Length lemmas -/

theorem rollingMean_length (w : Nat) (xs : List ℚ) :
    (rollingMean w xs).length = xs.length := by
  simp [rollingMean]

theorem ewmAux_length (a prev : ℚ) (xs : List ℚ) :
    (ewmAux a prev xs).length = xs.length := by
  induction xs generalizing prev with
  | nil => rfl
  | cons x rest ih => simp [ewmAux, ih]

theorem ewmMean_length (span : Nat) (xs : List ℚ) :
    (ewmMean span xs).length = xs.length := by
  cases xs with
  | nil => rfl
  | cons x rest => simp [ewmMean, ewmAux_length]

theorem pctChange_length (xs : List ℚ) :
    (pctChange xs).length = xs.length := by
  cases xs with
  | nil => rfl
  | cons x rest => simp [pctChange]

theorem shiftCol_length {α : Type} (xs : List α) :
    (shiftCol xs).length = xs.length := by
  cases xs with
  | nil => rfl
  | cons x rest => simp [shiftCol]

theorem cumprodAux_length (acc : ℚ) (xs : List (Option ℚ)) :
    (cumprodAux acc xs).length = xs.length := by
  induction xs generalizing acc with
  | nil => rfl
  | cons x rest ih => cases x <;> simp [cumprodAux, ih]

theorem cumprodSkipNA_length (xs : List (Option ℚ)) :
    (cumprodSkipNA xs).length = xs.length :=
  cumprodAux_length 1 xs

theorem onePlus_length (xs : List (Option ℚ)) :
    (onePlus xs).length = xs.length := by
  simp [onePlus]

theorem minusOne_length (xs : List (Option ℚ)) :
    (minusOne xs).length = xs.length := by
  simp [minusOne]

theorem posQ_length (xs : List (Option Int)) :
    (posQ xs).length = xs.length := by
  simp [posQ]

theorem rawSignal_length (fast slow : List (Option ℚ)) :
    (rawSignal fast slow).length = min fast.length slow.length := by
  simp [rawSignal]

theorem zeroWhereNone_length (slow : List (Option ℚ)) (sig : List Int) :
    (zeroWhereNone slow sig).length = min slow.length sig.length := by
  simp [zeroWhereNone]

theorem calculate_sma_lengths (closes : List ℚ) (fw sw : Nat) :
    (calculate_sma closes fw sw).close.length = closes.length ∧
    (calculate_sma closes fw sw).fastAvg.length = closes.length ∧
    (calculate_sma closes fw sw).slowAvg.length = closes.length ∧
    (calculate_sma closes fw sw).signal.length = closes.length ∧
    (calculate_sma closes fw sw).position.length = closes.length := by
  simp [calculate_sma, shiftCol_length, zeroWhereNone_length, rawSignal_length,
    rollingMean_length]

theorem calculate_ema_lengths (closes : List ℚ) (fw sw : Nat) :
    (calculate_ema closes fw sw).close.length = closes.length ∧
    (calculate_ema closes fw sw).fastAvg.length = closes.length ∧
    (calculate_ema closes fw sw).slowAvg.length = closes.length ∧
    (calculate_ema closes fw sw).signal.length = closes.length ∧
    (calculate_ema closes fw sw).position.length = closes.length := by
  simp [calculate_ema, shiftCol_length, zeroWhereNone_length, rawSignal_length,
    ewmMean_length]

/-! ### Index lemmas -/

theorem rollingMean_getElem (w : Nat) (xs : List ℚ) (i : Nat)
    (h : i < (rollingMean w xs).length) :
    (rollingMean w xs).get ⟨i, h⟩ =
      if i + 1 < w then none
      else some (((xs.take (i + 1)).drop (i + 1 - w)).sum / (w : ℚ)) := by
  simp [rollingMean]

theorem shiftCol_getElem_zero {α : Type} (xs : List α)
    (h : 0 < (shiftCol xs).length) :
    (shiftCol xs).get ⟨0, h⟩ = none := by
  cases xs with
  | nil => simp [shiftCol] at h
  | cons x rest => rfl

theorem shiftCol_getElem_succ {α : Type} (xs : List α) (i : Nat)
    (h : i + 1 < (shiftCol xs).length) (h2 : i < xs.length) :
    (shiftCol xs).get ⟨i + 1, h⟩ = some (xs.get ⟨i, h2⟩) := by
  cases xs with
  | nil => simp [shiftCol] at h
  | cons x rest =>
    have hd : i < (x :: rest).dropLast.length := by
      rw [shiftCol_length] at h
      simp only [List.length_dropLast, List.length_cons] at h ⊢
      omega
    show (none :: ((x :: rest).dropLast.map some)).get ⟨i + 1, _⟩ = _
    simp only [List.get_eq_getElem, List.getElem_cons_succ, List.getElem_map]
    exact congrArg some (List.getElem_dropLast (x :: rest) i hd)

theorem zeroWhereNone_getElem (slow : List (Option ℚ)) (sig : List Int)
    (i : Nat) (h : i < (zeroWhereNone slow sig).length)
    (hs : i < slow.length) (hv : i < sig.length) :
    (zeroWhereNone slow sig).get ⟨i, h⟩ =
      match slow.get ⟨i, hs⟩ with
      | none => 0
      | some _ => sig.get ⟨i, hv⟩ := by
  simp only [zeroWhereNone, List.get_eq_getElem, List.getElem_zipWith]

theorem rawSignal_getElem (fast slow : List (Option ℚ)) (i : Nat)
    (h : i < (rawSignal fast slow).length)
    (hf : i < fast.length) (hs : i < slow.length) :
    (rawSignal fast slow).get ⟨i, h⟩ =
      match fast.get ⟨i, hf⟩, slow.get ⟨i, hs⟩ with
      | some a, some b => if b < a then 1 else -1
      | _, _ => -1 := by
  simp only [rawSignal, List.get_eq_getElem, List.getElem_zipWith]

theorem pctChange_getElem_zero (xs : List ℚ) (h : 0 < (pctChange xs).length) :
    (pctChange xs).get ⟨0, h⟩ = none := by
  cases xs with
  | nil => simp [pctChange] at h
  | cons x rest => rfl

/-- Characterisation of skip-NA `cumprod`: the entry at `i` is missing
exactly where the input is, and otherwise is the accumulator times the
product of the defined entries among the first `i + 1`. -/
theorem cumprodAux_getElem (xs : List (Option ℚ)) (acc : ℚ) (i : Nat)
    (h : i < (cumprodAux acc xs).length) (h2 : i < xs.length) :
    (cumprodAux acc xs).get ⟨i, h⟩ =
      (xs.get ⟨i, h2⟩).map
        (fun _ => acc * ((xs.take (i + 1)).filterMap id).prod) := by
  induction xs generalizing acc i with
  | nil => simp at h2
  | cons x rest ih =>
    cases x with
    | none =>
      cases i with
      | zero => simp [cumprodAux]
      | succ j =>
        have h' : j < (cumprodAux acc rest).length := by
          rw [cumprodAux_length]
          simp at h2
          omega
        have h2' : j < rest.length := by simp at h2; omega
        show (none :: cumprodAux acc rest).get ⟨j + 1, _⟩ = _
        simp only [List.get_eq_getElem, List.getElem_cons_succ]
        have := ih acc j h' h2'
        simp only [List.get_eq_getElem] at this
        rw [this]
        simp [List.filterMap_cons]
    | some v =>
      cases i with
      | zero => simp [cumprodAux, List.filterMap_cons]
      | succ j =>
        have h' : j < (cumprodAux (acc * v) rest).length := by
          rw [cumprodAux_length]
          simp at h2
          omega
        have h2' : j < rest.length := by simp at h2; omega
        show (some (acc * v) :: cumprodAux (acc * v) rest).get ⟨j + 1, _⟩ = _
        simp only [List.get_eq_getElem, List.getElem_cons_succ]
        have := ih (acc * v) j h' h2'
        simp only [List.get_eq_getElem] at this
        rw [this]
        simp only [List.take_succ_cons, List.filterMap_cons, id]
        cases rest.get ⟨j, h2'⟩ <;> simp [List.prod_cons, mul_assoc]

theorem cumprodSkipNA_getElem (xs : List (Option ℚ)) (i : Nat)
    (h : i < (cumprodSkipNA xs).length) (h2 : i < xs.length) :
    (cumprodSkipNA xs).get ⟨i, h⟩ =
      (xs.get ⟨i, h2⟩).map
        (fun _ => ((xs.take (i + 1)).filterMap id).prod) := by
  have := cumprodAux_getElem xs 1 i h h2
  simpa using this

/-- Zeroing the signal where the slow column is missing is the identity
when the slow column has no missing entries. -/
theorem zeroWhereNone_of_all_some (ys : List ℚ) (sig : List Int)
    (hlen : ys.length = sig.length) :
    zeroWhereNone (ys.map some) sig = sig := by
  induction ys generalizing sig with
  | nil =>
    cases sig with
    | nil => rfl
    | cons v vs => simp at hlen
  | cons y ys ih =>
    cases sig with
    | nil => simp at hlen
    | cons v vs =>
      simp only [List.length_cons, Nat.add_right_cancel_iff] at hlen
      simp only [List.map_cons, zeroWhereNone, List.zipWith_cons_cons]
      exact congrArg (v :: ·) (ih vs hlen)

/-! ### Grouped-application lemmas -/

theorem valsOf_append {β : Type} (t : String) (a b : List (String × β)) :
    valsOf t (a ++ b) = valsOf t a ++ valsOf t b := by
  simp [valsOf, List.filter_append]

theorem valsOf_self_block {β : Type} (t : String) (cs : List β) :
    valsOf t (cs.map (fun x => (t, x))) = cs := by
  induction cs with
  | nil => rfl
  | cons c cs ih => simp [valsOf, List.filter_cons] at ih ⊢; exact ih

theorem valsOf_other_block {β : Type} (t t' : String) (h : t' ≠ t)
    (cs : List β) : valsOf t (cs.map (fun x => (t', x))) = [] := by
  induction cs with
  | nil => rfl
  | cons c cs ih => simp only [List.map_cons, valsOf, List.filter_cons] at ih ⊢; simp [h, ih]

theorem valsOf_flatRows_of_not_mem {β : Type} (t : String)
    (blocks : List (String × List β)) (h : t ∉ blocks.map Prod.fst) :
    valsOf t (flatRows blocks) = [] := by
  induction blocks with
  | nil => rfl
  | cons b bs ih =>
    simp only [List.map_cons, List.mem_cons, not_or] at h
    rw [show flatRows (b :: bs) = b.2.map (fun x => (b.1, x)) ++ flatRows bs
        from List.flatMap_cons .., valsOf_append,
      valsOf_other_block t b.1 (Ne.symm h.1) b.2, ih h.2, List.nil_append]

theorem valsOf_flatRows {β : Type} (blocks : List (String × List β))
    (hd : (blocks.map Prod.fst).Nodup) (t : String) (cs : List β)
    (hb : (t, cs) ∈ blocks) : valsOf t (flatRows blocks) = cs := by
  induction blocks with
  | nil => simp at hb
  | cons b bs ih =>
    simp only [List.map_cons, List.nodup_cons] at hd
    rw [show flatRows (b :: bs) = b.2.map (fun x => (b.1, x)) ++ flatRows bs
        from List.flatMap_cons .., valsOf_append]
    rcases List.mem_cons.mp hb with heq | hmem
    · rw [← heq]
      rw [← heq] at hd
      rw [valsOf_self_block, valsOf_flatRows_of_not_mem t bs hd.1,
        List.append_nil]
    · have hne : b.1 ≠ t := by
        intro hcontra
        exact hd.1 (hcontra ▸ List.mem_map.mpr ⟨(t, cs), hmem, rfl⟩)
      rw [valsOf_other_block t b.1 hne b.2, List.nil_append]
      exact ih hd.2 hmem

theorem applyGroupedAux_length {β γ : Type} (f : List β → List γ) (d : γ)
    (all : List (String × β)) (rows seen : List (String × β)) :
    (applyGroupedAux f d all seen rows).length = rows.length := by
  induction rows generalizing seen with
  | nil => rfl
  | cons r rest ih => simp [applyGroupedAux, ih]

theorem applyGrouped_length {β γ : Type} (f : List β → List γ) (d : γ)
    (rows : List (String × β)) :
    (applyGrouped f d rows).length = rows.length :=
  applyGroupedAux_length f d rows rows []

/-- Consuming one contiguous run of ticker-`t` rows emits the matching
slice of `f` applied to `t`'s full series. -/
theorem applyGroupedAux_block {β γ : Type} (f : List β → List γ) (d : γ)
    (all : List (String × β)) (t : String) (csAll : List β)
    (hall : valsOf t all = csAll) (hflen : (f csAll).length = csAll.length)
    (cs' : List β) :
    ∀ (seen rest : List (String × β)),
      (valsOf t seen).length + cs'.length ≤ csAll.length →
      applyGroupedAux f d all seen (cs'.map (fun x => (t, x)) ++ rest) =
        ((f csAll).drop (valsOf t seen).length).take cs'.length ++
          applyGroupedAux f d all (seen ++ cs'.map (fun x => (t, x))) rest := by
  induction cs' with
  | nil => intro seen rest _; simp
  | cons x cs' ih =>
    intro seen rest hle
    have hk : (valsOf t seen).length < (f csAll).length := by
      rw [hflen]
      simp only [List.length_cons] at hle
      omega
    have hseen' : valsOf t (seen ++ [(t, x)]) = valsOf t seen ++ [x] := by
      rw [valsOf_append]
      congr 1
      exact valsOf_self_block t [x]
    simp only [List.map_cons, List.cons_append]
    rw [show applyGroupedAux f d all seen
          ((t, x) :: (cs'.map (fun x => (t, x)) ++ rest)) =
        (f (valsOf t all)).getD (valsOf t seen).length d ::
          applyGroupedAux f d all (seen ++ [(t, x)])
            (cs'.map (fun x => (t, x)) ++ rest) from rfl]
    rw [hall, List.getD_eq_getElem (f csAll) d hk]
    have hle' : (valsOf t (seen ++ [(t, x)])).length + cs'.length ≤
        csAll.length := by
      rw [hseen']
      simp only [List.length_append, List.length_cons] at hle ⊢
      simp only [List.length_nil]
      omega
    rw [ih (seen ++ [(t, x)]) rest hle', hseen']
    rw [List.drop_eq_getElem_cons hk]
    simp only [List.length_cons, List.take_succ_cons, List.length_append,
      List.length_nil, Nat.add_zero, Nat.zero_add, List.cons_append,
      List.nil_append, List.append_assoc, List.singleton_append]

/-- Grouped application over block-structured rows with distinct tickers
is the concatenation of `f` applied to each block. -/
theorem applyGroupedAux_flat {β γ : Type} (f : List β → List γ) (d : γ)
    (all : List (String × β)) (blocks : List (String × List β)) :
    ∀ (seen : List (String × β)),
      (blocks.map Prod.fst).Nodup →
      (∀ b ∈ blocks,
        valsOf b.1 all = b.2 ∧ (f b.2).length = b.2.length ∧
          valsOf b.1 seen = []) →
      applyGroupedAux f d all seen (flatRows blocks) =
        (blocks.map (fun b => f b.2)).flatten := by
  induction blocks with
  | nil => intro seen _ _; rfl
  | cons b bs ih =>
    intro seen hd hb
    obtain ⟨hall, hflen, hseen⟩ := hb b (List.mem_cons_self b bs)
    simp only [List.map_cons, List.nodup_cons] at hd
    rw [show flatRows (b :: bs) = b.2.map (fun x => (b.1, x)) ++ flatRows bs
        from List.flatMap_cons ..]
    rw [applyGroupedAux_block f d all b.1 b.2 hall hflen b.2 seen
      (flatRows bs) (by rw [hseen]; simp)]
    rw [hseen]
    simp only [List.length_nil, List.drop_zero]
    rw [show (f b.2).take b.2.length = f b.2 by
      rw [← hflen]; exact List.take_length (f b.2)]
    rw [List.map_cons, List.flatten_cons]
    congr 1
    apply ih (seen ++ b.2.map (fun x => (b.1, x))) hd.2
    intro c hc
    obtain ⟨hall', hflen', hseen'⟩ := hb c (List.mem_cons_of_mem b hc)
    refine ⟨hall', hflen', ?_⟩
    rw [valsOf_append, hseen', List.nil_append]
    have hne : b.1 ≠ c.1 := by
      intro hcontra
      exact hd.1 (hcontra ▸ List.mem_map.mpr ⟨c, hc, rfl⟩)
    exact valsOf_other_block c.1 b.1 hne b.2

/-- Main grouped-application result: with pairwise-distinct tickers and a
length-preserving transform, aligned grouped application over the
concatenated panel equals per-block application, concatenated. -/
theorem applyGrouped_flatRows {β γ : Type} (f : List β → List γ) (d : γ)
    (blocks : List (String × List β))
    (hd : (blocks.map Prod.fst).Nodup)
    (hlen : ∀ b ∈ blocks, (f b.2).length = b.2.length) :
    applyGrouped f d (flatRows blocks) =
      (blocks.map (fun b => f b.2)).flatten := by
  apply applyGroupedAux_flat f d (flatRows blocks) blocks [] hd
  intro b hb
  exact ⟨valsOf_flatRows blocks hd b.1 b.2 (by simpa using hb),
    hlen b hb, rfl⟩

theorem map_const_zip {β γ : Type} (t : String) (xs : List β) (ys : List γ)
    (h : xs.length = ys.length) :
    (xs.map (fun _ => t)).zip ys = ys.map (fun y => (t, y)) := by
  induction xs generalizing ys with
  | nil =>
    cases ys with
    | nil => rfl
    | cons y ys => simp at h
  | cons x xs ih =>
    cases ys with
    | nil => simp at h
    | cons y ys =>
      simp only [List.length_cons, Nat.add_right_cancel_iff] at h
      simp only [List.map_cons, List.zip_cons_cons]
      exact congrArg ((t, y) :: ·) (ih ys h)

theorem tickersOf_cons (b : String × List ℚ) (bs : Panel) :
    tickersOf (b :: bs) = b.2.map (fun _ => b.1) ++ tickersOf bs := by
  simp [tickersOf, flatRows, List.map_append, List.map_map, Function.comp]

/-- Zipping the ticker column against a blockwise-built column recovers
block-structured rows. -/
theorem zip_tickers_flatten {γ : Type} (blocks : Panel)
    (g : String × List ℚ → List γ)
    (hlen : ∀ b ∈ blocks, (g b).length = b.2.length) :
    (tickersOf blocks).zip (blocks.map g).flatten =
      flatRows (blocks.map (fun b => (b.1, g b))) := by
  induction blocks with
  | nil => rfl
  | cons b bs ih =>
    rw [tickersOf_cons, List.map_cons, List.flatten_cons,
      List.zip_append (by
        rw [List.length_map, hlen b (List.mem_cons_self b bs)]),
      map_const_zip b.1 b.2 (g b)
        (hlen b (List.mem_cons_self b bs)).symm,
      ih (fun c hc => hlen c (List.mem_cons_of_mem b hc))]
    rw [List.map_cons,
      show flatRows ((b.1, g b) :: bs.map (fun c => (c.1, g c))) =
        (g b).map (fun y => ((b.1, g b).1, y)) ++
          flatRows (bs.map (fun c => (c.1, g c))) from List.flatMap_cons ..]

/-- Row-wise `zipWith` of two blockwise-built columns with matching block
lengths is the blockwise `zipWith`. -/
theorem zipWith_flatten_map {α β γ δ : Type} (f : β → γ → δ)
    (blocks : List α) (g1 : α → List β) (g2 : α → List γ)
    (h : ∀ b ∈ blocks, (g1 b).length = (g2 b).length) :
    List.zipWith f (blocks.map g1).flatten (blocks.map g2).flatten =
      (blocks.map (fun b => List.zipWith f (g1 b) (g2 b))).flatten := by
  induction blocks with
  | nil => rfl
  | cons b bs ih =>
    simp only [List.map_cons, List.flatten_cons]
    rw [List.zipWith_append f (g1 b) ((bs.map g1).flatten) (g2 b)
      ((bs.map g2).flatten) (h b (List.mem_cons_self b bs))]
    exact congrArg _ (ih (fun c hc => h c (List.mem_cons_of_mem b hc)))

theorem onePlus_flatten (L : List (List (Option ℚ))) :
    onePlus L.flatten = (L.map onePlus).flatten := by
  unfold onePlus
  rw [List.map_flatten]

theorem posQ_flatten (L : List (List (Option Int))) :
    posQ L.flatten = (L.map posQ).flatten := by
  unfold posQ
  rw [List.map_flatten]

/-- The panel `MarketDaily` column is the per-asset `pct_change` columns,
concatenated: compounding inputs are grouped by ticker. -/
theorem panelMarketDaily_flatten (blocks : Panel)
    (hd : (blocks.map Prod.fst).Nodup) :
    panelMarketDaily blocks = (blocks.map (fun b => pctChange b.2)).flatten :=
  applyGrouped_flatRows pctChange none blocks hd
    (fun b _ => pctChange_length b.2)

theorem mapped_blocks_nodup {γ : Type} (blocks : Panel)
    (hd : (blocks.map Prod.fst).Nodup) (g : String × List ℚ → List γ) :
    ((blocks.map (fun b => (b.1, g b))).map Prod.fst).Nodup := by
  simpa [List.map_map, Function.comp] using hd

/-- The panel `Market` column restarts the running product at each asset
boundary: it is the per-asset cumulative market return, concatenated. -/
theorem panelMarket_flatten (blocks : Panel)
    (hd : (blocks.map Prod.fst).Nodup) :
    panelMarket blocks = (blocks.map (fun b => marketCum b.2)).flatten := by
  unfold panelMarket
  rw [panelMarketDaily_flatten blocks hd, onePlus_flatten, List.map_map]
  simp only [Function.comp_def]
  rw [zip_tickers_flatten blocks (fun b => onePlus (pctChange b.2))
    (fun b _ => by rw [onePlus_length, pctChange_length])]
  rw [applyGrouped_flatRows cumprodSkipNA none
    (blocks.map (fun b => (b.1, onePlus (pctChange b.2))))
    (mapped_blocks_nodup blocks hd _)
    (fun b hb => cumprodSkipNA_length b.2)]
  simp [Function.comp_def, marketCum]

theorem panelStrategyDaily_flatten (blocks : Panel) (fw sw : Nat)
    (hd : (blocks.map Prod.fst).Nodup) :
    panelStrategyDaily blocks fw sw =
      (blocks.map (fun b => stratDaily (calculate_sma b.2 fw sw))).flatten := by
  unfold panelStrategyDaily panelPosition
  rw [panelMarketDaily_flatten blocks hd, posQ_flatten, List.map_map]
  simp only [Function.comp_def]
  rw [zipWith_flatten_map omul blocks
    (fun b => posQ (calculate_sma b.2 fw sw).position)
    (fun b => pctChange b.2)
    (fun b _ => by
      rw [posQ_length, pctChange_length,
        (calculate_sma_lengths b.2 fw sw).2.2.2.2])]
  rfl

/-- The panel `Strategy` column restarts the running product at each asset
boundary: it is the per-asset cumulative strategy return, concatenated. -/
theorem panelStrategy_flatten (blocks : Panel) (fw sw : Nat)
    (hd : (blocks.map Prod.fst).Nodup) :
    panelStrategy blocks fw sw =
      (blocks.map
        (fun b => strategyCum (calculate_sma b.2 fw sw))).flatten := by
  unfold panelStrategy
  rw [panelStrategyDaily_flatten blocks fw sw hd, onePlus_flatten,
    List.map_map]
  simp only [Function.comp_def]
  have hlen : ∀ b ∈ blocks,
      (onePlus (stratDaily (calculate_sma b.2 fw sw))).length =
        b.2.length := by
    intro b _
    rw [onePlus_length, stratDaily, List.length_zipWith, posQ_length,
      (calculate_sma_lengths b.2 fw sw).2.2.2.2]
    show min _ (pctChange (calculate_sma b.2 fw sw).close).length = _
    rw [pctChange_length]
    simp [calculate_sma]
  rw [zip_tickers_flatten blocks
    (fun b => onePlus (stratDaily (calculate_sma b.2 fw sw))) hlen]
  rw [applyGrouped_flatRows cumprodSkipNA none
    (blocks.map
      (fun b => (b.1, onePlus (stratDaily (calculate_sma b.2 fw sw)))))
    (mapped_blocks_nodup blocks hd _)
    (fun b hb => cumprodSkipNA_length _)]
  simp [Function.comp_def, strategyCum]

/-! ### Spec-side definitions (for refutation of claims, following the
spec's words rather than the source) -/

/-- Modelled from the spec: "Cumulative market/strategy return = running
product of (1 + daily return) − 1".  At each index the product of
(1 + r) over the defined daily returns so far, minus 1; missing where the
daily return is missing. -/
def specCumulativeMinus1 (daily : List (Option ℚ)) : List (Option ℚ) :=
  (List.range daily.length).map (fun i =>
    (daily.getD i none).map
      (fun _ =>
        (((daily.take (i + 1)).filterMap id).map (fun r => 1 + r)).prod - 1))

/-- The spec's error taxonomy for `computeCrossover`. -/
inductive CrossoverFailure
  | invalidWindow
  | emptySeries
  deriving Repr, DecidableEq

/-- Modelled from the spec: the validation the spec prescribes for
`computeCrossover` ("fails with InvalidWindow when a window length is
non-positive, and fails with EmptySeries when the input sequence has zero
points", before any computation).  The notebook code contains no such
checks. -/
def specValidate (closes : List ℚ) (fw sw : Int) :
    Except CrossoverFailure Unit :=
  if fw ≤ 0 ∨ sw ≤ 0 then .error .invalidWindow
  else if closes = [] then .error .emptySeries
  else .ok ()

/-! ### Signal characterisation -/

theorem signal_getElem_char (fast slow : List (Option ℚ)) (i : Nat)
    (h : i < (zeroWhereNone slow (rawSignal fast slow)).length)
    (hf : i < fast.length) (hs : i < slow.length) :
    (zeroWhereNone slow (rawSignal fast slow)).get ⟨i, h⟩ =
      match slow.get ⟨i, hs⟩, fast.get ⟨i, hf⟩ with
      | none, _ => 0
      | some s, some f => if s < f then 1 else -1
      | some _, none => -1 := by
  have hraw : i < (rawSignal fast slow).length := by
    rw [rawSignal_length]; omega
  rw [zeroWhereNone_getElem slow _ i h hs hraw,
    rawSignal_getElem fast slow i hraw hf hs]
  rcases slow.get ⟨i, hs⟩ with _ | s <;> rcases fast.get ⟨i, hf⟩ with _ | f
    <;> rfl

/-! ### Claim theorems -/

/-- C2: for every index i of the output, Signal at i is +1 if
FastAvg[i] > SlowAvg[i] and -1 otherwise (so a tie yields -1), except
that Signal is forced to 0 where SlowAvg is undefined; consequently
Signal always lies in {-1, 0, +1}. -/
theorem claimC2 (closes : List ℚ) (fw sw : Nat) (k : AverageKind) (i : Nat)
    (h : i < (computeCrossover closes fw sw k).signal.length)
    (hf : i < (computeCrossover closes fw sw k).fastAvg.length)
    (hs : i < (computeCrossover closes fw sw k).slowAvg.length) :
    (computeCrossover closes fw sw k).signal.get ⟨i, h⟩ =
      (match (computeCrossover closes fw sw k).slowAvg.get ⟨i, hs⟩,
          (computeCrossover closes fw sw k).fastAvg.get ⟨i, hf⟩ with
        | none, _ => 0
        | some s, some f => if s < f then 1 else -1
        | some _, none => -1) ∧
    ((computeCrossover closes fw sw k).signal.get ⟨i, h⟩ = -1 ∨
      (computeCrossover closes fw sw k).signal.get ⟨i, h⟩ = 0 ∨
      (computeCrossover closes fw sw k).signal.get ⟨i, h⟩ = 1) := by
  have heq : (computeCrossover closes fw sw k).signal.get ⟨i, h⟩ =
      (match (computeCrossover closes fw sw k).slowAvg.get ⟨i, hs⟩,
          (computeCrossover closes fw sw k).fastAvg.get ⟨i, hf⟩ with
        | none, _ => 0
        | some s, some f => if s < f then 1 else -1
        | some _, none => -1) := by
    cases k <;>
      exact signal_getElem_char _ _ i h hf hs
  refine ⟨heq, ?_⟩
  rw [heq]
  rcases (computeCrossover closes fw sw k).slowAvg.get ⟨i, hs⟩ with _ | s
  · right; left; rfl
  · rcases (computeCrossover closes fw sw k).fastAvg.get ⟨i, hf⟩ with _ | f
    · left; rfl
    · by_cases hc : s < f
      · right; right; simp [hc]
      · left; simp [hc]

/-- C3: Position[i] equals Signal[i-1] for every i >= 1 (the signal
shifted by one period), and Position[0] is the missing "no position"
sentinel, for both average kinds. -/
theorem claimC3 (closes : List ℚ) (fw sw : Nat) (k : AverageKind) (i : Nat)
    (h0 : 0 < (computeCrossover closes fw sw k).position.length)
    (hi : i + 1 < (computeCrossover closes fw sw k).position.length)
    (hs : i < (computeCrossover closes fw sw k).signal.length) :
    (computeCrossover closes fw sw k).position.get ⟨0, h0⟩ = none ∧
    (computeCrossover closes fw sw k).position.get ⟨i + 1, hi⟩ =
      some ((computeCrossover closes fw sw k).signal.get ⟨i, hs⟩) := by
  cases k <;>
    exact ⟨shiftCol_getElem_zero _ h0, shiftCol_getElem_succ _ i hi hs⟩

/-- C6: under the simple variant, SlowAvg is undefined exactly at the
indices strictly below slowWindow - 1; under the exponential variant,
SlowAvg is defined at every index. -/
theorem claimC6 (closes : List ℚ) (fw sw : Nat) (hw : 0 < sw) (i : Nat)
    (hsS : i < (computeCrossover closes fw sw .simple).slowAvg.length)
    (hsE : i < (computeCrossover closes fw sw .exponential).slowAvg.length) :
    ((computeCrossover closes fw sw .simple).slowAvg.get ⟨i, hsS⟩ = none ↔
      i < sw - 1) ∧
    ((computeCrossover closes fw sw .exponential).slowAvg.get
      ⟨i, hsE⟩).isSome = true := by
  constructor
  · rw [show (computeCrossover closes fw sw .simple).slowAvg.get ⟨i, hsS⟩ =
        (rollingMean sw closes).get ⟨i, by exact hsS⟩ from rfl,
      rollingMean_getElem]
    split
    · simp; omega
    · simp; omega
  · rw [show (computeCrossover closes fw sw .exponential).slowAvg.get
        ⟨i, hsE⟩ =
        ((ewmMean sw closes).map some).get ⟨i, by exact hsE⟩ from rfl]
    simp

/-- C8: the computation is a pure function: the close-price series in the
output is the input series unchanged, and re-running the computation on
that series yields the identical output. -/
theorem claimC8 (closes : List ℚ) (fw sw : Nat) (k : AverageKind) :
    (computeCrossover closes fw sw k).close = closes ∧
    computeCrossover ((computeCrossover closes fw sw k).close) fw sw k =
      computeCrossover closes fw sw k := by
  cases k <;> exact ⟨rfl, rfl⟩

/-- C9: under the exponential variant, SlowAvg is never missing, so the
zeroing step is a no-op; Signal is +1 or -1 at every index (never 0), and
Position is +1 or -1 at every index i >= 1. -/
theorem claimC9 (closes : List ℚ) (fw sw : Nat) (i : Nat)
    (hs : i < (calculate_ema closes fw sw).signal.length)
    (hp : i + 1 < (calculate_ema closes fw sw).position.length) :
    (calculate_ema closes fw sw).signal =
      rawSignal (calculate_ema closes fw sw).fastAvg
        (calculate_ema closes fw sw).slowAvg ∧
    ((calculate_ema closes fw sw).signal.get ⟨i, hs⟩ = 1 ∨
      (calculate_ema closes fw sw).signal.get ⟨i, hs⟩ = -1) ∧
    ((calculate_ema closes fw sw).position.get ⟨i + 1, hp⟩ = some 1 ∨
      (calculate_ema closes fw sw).position.get ⟨i + 1, hp⟩ = some (-1)) := by
  have hnoop : (calculate_ema closes fw sw).signal =
      rawSignal (calculate_ema closes fw sw).fastAvg
        (calculate_ema closes fw sw).slowAvg := by
    show zeroWhereNone ((ewmMean sw closes).map some)
        (rawSignal ((ewmMean fw closes).map some)
          ((ewmMean sw closes).map some)) = _
    exact zeroWhereNone_of_all_some (ewmMean sw closes) _
      (by rw [rawSignal_length]; simp [ewmMean_length])
  have hval : ∀ (j : Nat) (hj : j < (calculate_ema closes fw sw).signal.length),
      (calculate_ema closes fw sw).signal.get ⟨j, hj⟩ = 1 ∨
        (calculate_ema closes fw sw).signal.get ⟨j, hj⟩ = -1 := by
    intro j hj
    have hlensig := (calculate_ema_lengths closes fw sw).2.2.2.1
    have hjc : j < closes.length := hlensig ▸ hj
    have hjf : j < (calculate_ema closes fw sw).fastAvg.length := by
      rw [(calculate_ema_lengths closes fw sw).2.1]; omega
    have hjs : j < (calculate_ema closes fw sw).slowAvg.length := by
      rw [(calculate_ema_lengths closes fw sw).2.2.1]; omega
    have hjf2 : j < (ewmMean fw closes).length := by
      rw [ewmMean_length]; omega
    have hjs2 : j < (ewmMean sw closes).length := by
      rw [ewmMean_length]; omega
    have heq : (calculate_ema closes fw sw).signal.get ⟨j, hj⟩ =
        (match (calculate_ema closes fw sw).slowAvg.get ⟨j, hjs⟩,
            (calculate_ema closes fw sw).fastAvg.get ⟨j, hjf⟩ with
          | none, _ => 0
          | some s, some f => if s < f then 1 else -1
          | some _, none => -1) :=
      signal_getElem_char _ _ j hj hjf hjs
    have hsv : (calculate_ema closes fw sw).slowAvg.get ⟨j, hjs⟩ =
        some ((ewmMean sw closes).get ⟨j, hjs2⟩) := by
      simp [calculate_ema]
    have hfv : (calculate_ema closes fw sw).fastAvg.get ⟨j, hjf⟩ =
        some ((ewmMean fw closes).get ⟨j, hjf2⟩) := by
      simp [calculate_ema]
    by_cases hc : (ewmMean sw closes).get ⟨j, hjs2⟩ <
        (ewmMean fw closes).get ⟨j, hjf2⟩
    · left
      rw [heq, hsv, hfv]
      show (if (ewmMean sw closes).get ⟨j, hjs2⟩ <
          (ewmMean fw closes).get ⟨j, hjf2⟩ then (1 : Int) else -1) = 1
      rw [if_pos hc]
    · right
      rw [heq, hsv, hfv]
      show (if (ewmMean sw closes).get ⟨j, hjs2⟩ <
          (ewmMean fw closes).get ⟨j, hjf2⟩ then (1 : Int) else -1) = -1
      rw [if_neg hc]
  have hsig : i < (calculate_ema closes fw sw).signal.length := by
    have h1 := (calculate_ema_lengths closes fw sw).2.2.2.1
    have h2 := (calculate_ema_lengths closes fw sw).2.2.2.2
    omega
  refine ⟨hnoop, hval i hs, ?_⟩
  rw [show (calculate_ema closes fw sw).position.get ⟨i + 1, hp⟩ =
      some ((calculate_ema closes fw sw).signal.get ⟨i, hsig⟩) from
    shiftCol_getElem_succ _ i hp hsig]
  rcases hval i hsig with hv | hv
  · left; rw [hv]
  · right; rw [hv]

theorem flatten_map_length {γ : Type} (blocks : Panel)
    (g : String × List ℚ → List γ)
    (h : ∀ b ∈ blocks, (g b).length = b.2.length) :
    ((blocks.map g).flatten).length = (flatRows blocks).length := by
  induction blocks with
  | nil => rfl
  | cons b bs ih =>
    rw [List.map_cons, List.flatten_cons, List.length_append,
      show flatRows (b :: bs) = b.2.map (fun x => (b.1, x)) ++ flatRows bs
        from List.flatMap_cons .., List.length_append, List.length_map,
      h b (List.mem_cons_self b bs),
      ih (fun c hc => h c (List.mem_cons_of_mem b hc))]

theorem panelPosition_length (blocks : Panel) (fw sw : Nat) :
    (panelPosition blocks fw sw).length = (flatRows blocks).length :=
  flatten_map_length blocks _
    (fun b _ => (calculate_sma_lengths b.2 fw sw).2.2.2.2)

theorem panelMarketDaily_length (blocks : Panel) :
    (panelMarketDaily blocks).length = (flatRows blocks).length :=
  applyGrouped_length pctChange none (flatRows blocks)

theorem tickersOf_length (blocks : Panel) :
    (tickersOf blocks).length = (flatRows blocks).length := by
  simp [tickersOf]

theorem panelStrategyDaily_length (blocks : Panel) (fw sw : Nat) :
    (panelStrategyDaily blocks fw sw).length = (flatRows blocks).length := by
  rw [panelStrategyDaily, List.length_zipWith, posQ_length,
    panelPosition_length, panelMarketDaily_length]
  exact min_self _

theorem panelMarket_length (blocks : Panel) :
    (panelMarket blocks).length = (flatRows blocks).length := by
  rw [panelMarket, applyGrouped_length, List.length_zip, tickersOf_length,
    onePlus_length, panelMarketDaily_length]
  exact min_self _

theorem panelStrategy_length (blocks : Panel) (fw sw : Nat) :
    (panelStrategy blocks fw sw).length = (flatRows blocks).length := by
  rw [panelStrategy, applyGrouped_length, List.length_zip, tickersOf_length,
    onePlus_length, panelStrategyDaily_length]
  exact min_self _

/-- C5: for every valid input (non-empty series, positive windows) the
output of the crossover computation has exactly as many rows as the
input, and each panel column has exactly as many rows as the concatenated
panel input. -/
theorem claimC5 (closes : List ℚ) (fw sw : Nat) (k : AverageKind)
    (blocks : Panel) (h1 : 0 < fw) (h2 : 0 < sw) (h3 : closes ≠ []) :
    (computeCrossover closes fw sw k).fastAvg.length = closes.length ∧
    (computeCrossover closes fw sw k).slowAvg.length = closes.length ∧
    (computeCrossover closes fw sw k).signal.length = closes.length ∧
    (computeCrossover closes fw sw k).position.length = closes.length ∧
    (panelPosition blocks fw sw).length = (flatRows blocks).length ∧
    (panelMarketDaily blocks).length = (flatRows blocks).length ∧
    (panelStrategyDaily blocks fw sw).length = (flatRows blocks).length ∧
    (panelMarket blocks).length = (flatRows blocks).length ∧
    (panelStrategy blocks fw sw).length = (flatRows blocks).length := by
  refine ⟨?_, ?_, ?_, ?_, panelPosition_length blocks fw sw,
    panelMarketDaily_length blocks, panelStrategyDaily_length blocks fw sw,
    panelMarket_length blocks, panelStrategy_length blocks fw sw⟩ <;>
    cases k
  · exact (calculate_sma_lengths closes fw sw).2.1
  · exact (calculate_ema_lengths closes fw sw).2.1
  · exact (calculate_sma_lengths closes fw sw).2.2.1
  · exact (calculate_ema_lengths closes fw sw).2.2.1
  · exact (calculate_sma_lengths closes fw sw).2.2.2.1
  · exact (calculate_ema_lengths closes fw sw).2.2.2.1
  · exact (calculate_sma_lengths closes fw sw).2.2.2.2
  · exact (calculate_ema_lengths closes fw sw).2.2.2.2

/-! ### Cumulative-return characterisation -/

theorem filterMap_id_onePlus (xs : List (Option ℚ)) :
    (onePlus xs).filterMap id = (xs.filterMap id).map (fun r => 1 + r) := by
  induction xs with
  | nil => rfl
  | cons x rest ih =>
    cases x with
    | none => exact ih
    | some v => exact congrArg (List.cons (1 + v)) ih

theorem onePlus_take (xs : List (Option ℚ)) (n : Nat) :
    onePlus (xs.take n) = (onePlus xs).take n := by
  simp [onePlus, List.map_take]

theorem cumprod_onePlus_getElem (daily : List (Option ℚ)) (i : Nat)
    (h : i < (cumprodSkipNA (onePlus daily)).length) (h2 : i < daily.length) :
    (cumprodSkipNA (onePlus daily)).get ⟨i, h⟩ =
      (daily.get ⟨i, h2⟩).map
        (fun _ => (((daily.take (i + 1)).filterMap id).map
          (fun r => 1 + r)).prod) := by
  have h3 : i < (onePlus daily).length := by rw [onePlus_length]; exact h2
  rw [cumprodSkipNA_getElem (onePlus daily) i h h3]
  have hget : (onePlus daily).get ⟨i, h3⟩ =
      (daily.get ⟨i, h2⟩).map (fun r => 1 + r) := by
    simp [onePlus]
  rw [hget, ← onePlus_take, filterMap_id_onePlus]
  cases daily.get ⟨i, h2⟩ <;> rfl

/-- C1 (refutation of the claim as stated): the panel cumulative market
column does NOT subtract 1 from the running product.  On the one-asset
panel with closes [1, 2] the code yields Market = [missing, 2] while the
claimed formula yields [missing, 1]. -/
theorem claimC1_counterexample :
    panelMarket [("A", [1, 2])] ≠
      specCumulativeMinus1 (panelMarketDaily [("A", [1, 2])]) := by
  have h1 : panelMarket [("A", [1, 2])] = [none, some 2] := by
    norm_num [panelMarket, panelMarketDaily, applyGrouped, applyGroupedAux,
      valsOf, flatRows, tickersOf, pctChange, onePlus, cumprodSkipNA,
      cumprodAux, List.filter]
  have h2 : specCumulativeMinus1 (panelMarketDaily [("A", [1, 2])]) =
      [none, some 1] := by
    have hmd : panelMarketDaily [("A", [1, 2])] = [none, some 1] := by
      norm_num [panelMarketDaily, applyGrouped, applyGroupedAux, valsOf,
        flatRows, pctChange, List.filter]
    rw [hmd]
    norm_num [specCumulativeMinus1, List.range_succ, List.filterMap_cons,
      List.filterMap_nil]
  rw [h1, h2]
  norm_num

/-- C1 (amended): the panel cumulative market and strategy columns are
the running product of (1 + daily return) restarted per asset WITHOUT the
subtraction of 1: each entry is missing exactly where the daily return
is, and otherwise equals the product of (1 + r) over the asset's defined
daily returns so far; only the EMA cell's Strategy column subtracts 1
from the running product. -/
theorem claimC1_amended (blocks : Panel) (fw sw : Nat)
    (hd : (blocks.map Prod.fst).Nodup) (closes : List ℚ) (i : Nat)
    (hm : i < (marketCum closes).length)
    (hdm : i < (pctChange closes).length)
    (hsc : i < (strategyCum (calculate_sma closes fw sw)).length)
    (hsd : i < (stratDaily (calculate_sma closes fw sw)).length)
    (hes : i < (emaStrategy closes fw sw).length)
    (hed : i < (stratDaily (calculate_ema closes fw sw)).length) :
    panelMarket blocks = (blocks.map (fun b => marketCum b.2)).flatten ∧
    panelStrategy blocks fw sw =
      (blocks.map (fun b => strategyCum (calculate_sma b.2 fw sw))).flatten ∧
    (marketCum closes).get ⟨i, hm⟩ =
      ((pctChange closes).get ⟨i, hdm⟩).map
        (fun _ => ((((pctChange closes).take (i + 1)).filterMap id).map
          (fun r => 1 + r)).prod) ∧
    (strategyCum (calculate_sma closes fw sw)).get ⟨i, hsc⟩ =
      ((stratDaily (calculate_sma closes fw sw)).get ⟨i, hsd⟩).map
        (fun _ =>
          ((((stratDaily (calculate_sma closes fw sw)).take (i + 1)).filterMap
            id).map (fun r => 1 + r)).prod) ∧
    (emaStrategy closes fw sw).get ⟨i, hes⟩ =
      ((stratDaily (calculate_ema closes fw sw)).get ⟨i, hed⟩).map
        (fun _ =>
          ((((stratDaily (calculate_ema closes fw sw)).take (i + 1)).filterMap
            id).map (fun r => 1 + r)).prod - 1) := by
  refine ⟨panelMarket_flatten blocks hd, panelStrategy_flatten blocks fw sw hd,
    cumprod_onePlus_getElem _ i hm hdm,
    cumprod_onePlus_getElem _ i hsc hsd, ?_⟩
  have hc : i < (cumprodSkipNA (onePlus
      (stratDaily (calculate_ema closes fw sw)))).length := by
    rw [cumprodSkipNA_length, onePlus_length]; exact hed
  have h1 : (emaStrategy closes fw sw).get ⟨i, hes⟩ =
      ((cumprodSkipNA (onePlus
        (stratDaily (calculate_ema closes fw sw)))).get ⟨i, hc⟩).map
        (fun r => r - 1) := by
    simp [emaStrategy, minusOne]
  rw [h1, cumprod_onePlus_getElem _ i hc hed]
  cases (stratDaily (calculate_ema closes fw sw)).get ⟨i, hed⟩ <;> rfl

/-- C7: each asset's panel-mode columns equal the columns produced by
running the computation on that asset's series alone (concatenated in
block order): there is no cross-asset leakage. -/
theorem claimC7 (blocks : Panel) (fw sw : Nat)
    (hd : (blocks.map Prod.fst).Nodup) :
    panelMarketDaily blocks =
      (blocks.map (fun b => panelMarketDaily [(b.1, b.2)])).flatten ∧
    panelMarket blocks =
      (blocks.map (fun b => panelMarket [(b.1, b.2)])).flatten ∧
    panelStrategyDaily blocks fw sw =
      (blocks.map (fun b => panelStrategyDaily [(b.1, b.2)] fw sw)).flatten ∧
    panelStrategy blocks fw sw =
      (blocks.map (fun b => panelStrategy [(b.1, b.2)] fw sw)).flatten := by
  have hs1 : ∀ b : String × List ℚ,
      panelMarketDaily [(b.1, b.2)] = pctChange b.2 := by
    intro b
    rw [panelMarketDaily_flatten [(b.1, b.2)] (by simp)]
    simp
  have hs2 : ∀ b : String × List ℚ,
      panelMarket [(b.1, b.2)] = marketCum b.2 := by
    intro b
    rw [panelMarket_flatten [(b.1, b.2)] (by simp)]
    simp
  have hs3 : ∀ b : String × List ℚ,
      panelStrategyDaily [(b.1, b.2)] fw sw =
        stratDaily (calculate_sma b.2 fw sw) := by
    intro b
    rw [panelStrategyDaily_flatten [(b.1, b.2)] fw sw (by simp)]
    simp
  have hs4 : ∀ b : String × List ℚ,
      panelStrategy [(b.1, b.2)] fw sw =
        strategyCum (calculate_sma b.2 fw sw) := by
    intro b
    rw [panelStrategy_flatten [(b.1, b.2)] fw sw (by simp)]
    simp
  refine ⟨?_, ?_, ?_, ?_⟩
  · rw [panelMarketDaily_flatten blocks hd]; simp only [hs1]
  · rw [panelMarket_flatten blocks hd]; simp only [hs2]
  · rw [panelStrategyDaily_flatten blocks fw sw hd]; simp only [hs3]
  · rw [panelStrategy_flatten blocks fw sw hd]; simp only [hs4]

theorem stratDaily_getElem_zero (out : CrossoverOutput)
    (h : 0 < (stratDaily out).length)
    (hp : 0 < out.position.length)
    (hpz : out.position.get ⟨0, hp⟩ = none) :
    (stratDaily out).get ⟨0, h⟩ = none := by
  have hq : 0 < (posQ out.position).length := by rw [posQ_length]; exact hp
  have hqz : (posQ out.position).get ⟨0, hq⟩ = none := by
    show (out.position.map _).get ⟨0, hq⟩ = none
    simp only [List.get_eq_getElem, List.getElem_map]
    have h0 : out.position[0] = none := hpz
    rw [h0]
    rfl
  show (List.zipWith omul (posQ out.position)
    (pctChange out.close)).get ⟨0, h⟩ = none
  simp only [List.get_eq_getElem, List.getElem_zipWith]
  have h0q : (posQ out.position)[0] = none := hqz
  rw [h0q]
  rfl

/-- C10: at the first row of each asset the strategy daily return is
missing (not zero), because both Position[0] and the daily return at
index 0 are missing; consequently the cumulative strategy return is also
missing at that first row, in the grouped panel columns (which decompose
per asset) and in the EMA cell's columns. -/
theorem claimC10 (blocks : Panel) (fw sw : Nat)
    (hd : (blocks.map Prod.fst).Nodup) (cs : List ℚ)
    (hp : 0 < (calculate_sma cs fw sw).position.length)
    (hm : 0 < (pctChange cs).length)
    (hsd : 0 < (stratDaily (calculate_sma cs fw sw)).length)
    (hsc : 0 < (strategyCum (calculate_sma cs fw sw)).length)
    (hpe : 0 < (calculate_ema cs fw sw).position.length)
    (hde : 0 < (stratDaily (calculate_ema cs fw sw)).length)
    (hse : 0 < (emaStrategy cs fw sw).length) :
    panelStrategyDaily blocks fw sw =
      (blocks.map (fun b => stratDaily (calculate_sma b.2 fw sw))).flatten ∧
    panelStrategy blocks fw sw =
      (blocks.map (fun b => strategyCum (calculate_sma b.2 fw sw))).flatten ∧
    (calculate_sma cs fw sw).position.get ⟨0, hp⟩ = none ∧
    (pctChange cs).get ⟨0, hm⟩ = none ∧
    (stratDaily (calculate_sma cs fw sw)).get ⟨0, hsd⟩ = none ∧
    (strategyCum (calculate_sma cs fw sw)).get ⟨0, hsc⟩ = none ∧
    (calculate_ema cs fw sw).position.get ⟨0, hpe⟩ = none ∧
    (stratDaily (calculate_ema cs fw sw)).get ⟨0, hde⟩ = none ∧
    (emaStrategy cs fw sw).get ⟨0, hse⟩ = none := by
  have hzs : (calculate_sma cs fw sw).position.get ⟨0, hp⟩ = none :=
    shiftCol_getElem_zero _ hp
  have hze : (calculate_ema cs fw sw).position.get ⟨0, hpe⟩ = none :=
    shiftCol_getElem_zero _ hpe
  have hds : (stratDaily (calculate_sma cs fw sw)).get ⟨0, hsd⟩ = none :=
    stratDaily_getElem_zero _ hsd hp hzs
  have hde2 : (stratDaily (calculate_ema cs fw sw)).get ⟨0, hde⟩ = none :=
    stratDaily_getElem_zero _ hde hpe hze
  have hcs : (strategyCum (calculate_sma cs fw sw)).get ⟨0, hsc⟩ = none := by
    rw [show (strategyCum (calculate_sma cs fw sw)).get ⟨0, hsc⟩ =
        ((stratDaily (calculate_sma cs fw sw)).get ⟨0, hsd⟩).map _ from
      cumprod_onePlus_getElem _ 0 hsc hsd, hds]
    rfl
  have hces : (emaStrategy cs fw sw).get ⟨0, hse⟩ = none := by
    have hcc : 0 < (cumprodSkipNA (onePlus
        (stratDaily (calculate_ema cs fw sw)))).length := by
      rw [cumprodSkipNA_length, onePlus_length]; exact hde
    have h1 : (emaStrategy cs fw sw).get ⟨0, hse⟩ =
        ((cumprodSkipNA (onePlus
          (stratDaily (calculate_ema cs fw sw)))).get ⟨0, hcc⟩).map
          (fun r => r - 1) := by
      simp [emaStrategy, minusOne]
    rw [h1, show (cumprodSkipNA (onePlus
        (stratDaily (calculate_ema cs fw sw)))).get ⟨0, hcc⟩ =
        ((stratDaily (calculate_ema cs fw sw)).get ⟨0, hde⟩).map _ from
      cumprod_onePlus_getElem _ 0 hcc hde, hde2]
    rfl
  exact ⟨panelStrategyDaily_flatten blocks fw sw hd,
    panelStrategy_flatten blocks fw sw hd,
    hzs, pctChange_getElem_zero cs hm, hds, hcs, hze, hde2, hces⟩

/-- C4 (refutation of the claim as stated): on the empty input series the
code returns an empty output instead of failing; the EmptySeries failure
exists only in the spec-modelled validation. -/
theorem claimC4_counterexample :
    specValidate [] 2 3 = Except.error CrossoverFailure.emptySeries ∧
    computeCrossover [] 2 3 AverageKind.simple =
      { close := [], fastAvg := [], slowAvg := [], signal := [],
        position := [] } ∧
    computeCrossover [] 2 3 AverageKind.exponential =
      { close := [], fastAvg := [], slowAvg := [], signal := [],
        position := [] } :=
  ⟨rfl, rfl, rfl⟩

/-- C4 (amended): the computation performs no input validation and raises
no failure of its own: on an empty input series every column of the
output is empty, for both average kinds and any window lengths; the
spec's InvalidWindow/EmptySeries failures never occur in the code. -/
theorem claimC4_amended (fw sw : Nat) (k : AverageKind) :
    computeCrossover [] fw sw k =
      { close := [], fastAvg := [], slowAvg := [], signal := [],
        position := [] } := by
  cases k <;> rfl

/-! ### Witnesses: each hypothesis-bearing claim theorem applied at a
concrete input -/

theorem claimC2_witness :
    (computeCrossover [10, 11, 12] 1 2 AverageKind.simple).signal.get
      ⟨2, by decide⟩ =
      (match (computeCrossover [10, 11, 12] 1 2
          AverageKind.simple).slowAvg.get ⟨2, by decide⟩,
        (computeCrossover [10, 11, 12] 1 2 AverageKind.simple).fastAvg.get
          ⟨2, by decide⟩ with
        | none, _ => 0
        | some s, some f => if s < f then 1 else -1
        | some _, none => -1) ∧
    ((computeCrossover [10, 11, 12] 1 2 AverageKind.simple).signal.get
        ⟨2, by decide⟩ = -1 ∨
      (computeCrossover [10, 11, 12] 1 2 AverageKind.simple).signal.get
        ⟨2, by decide⟩ = 0 ∨
      (computeCrossover [10, 11, 12] 1 2 AverageKind.simple).signal.get
        ⟨2, by decide⟩ = 1) :=
  claimC2 [10, 11, 12] 1 2 AverageKind.simple 2 (by decide) (by decide)
    (by decide)

theorem claimC3_witness :
    (computeCrossover [10, 11, 12] 1 2 AverageKind.simple).position.get
      ⟨0, by decide⟩ = none ∧
    (computeCrossover [10, 11, 12] 1 2 AverageKind.simple).position.get
      ⟨1, by decide⟩ =
      some ((computeCrossover [10, 11, 12] 1 2 AverageKind.simple).signal.get
        ⟨0, by decide⟩) :=
  claimC3 [10, 11, 12] 1 2 AverageKind.simple 0 (by decide) (by decide)
    (by decide)

theorem claimC5_witness :
    (computeCrossover [10, 11, 12] 1 2 AverageKind.simple).fastAvg.length =
      ([10, 11, 12] : List ℚ).length ∧
    (computeCrossover [10, 11, 12] 1 2 AverageKind.simple).slowAvg.length =
      ([10, 11, 12] : List ℚ).length ∧
    (computeCrossover [10, 11, 12] 1 2 AverageKind.simple).signal.length =
      ([10, 11, 12] : List ℚ).length ∧
    (computeCrossover [10, 11, 12] 1 2 AverageKind.simple).position.length =
      ([10, 11, 12] : List ℚ).length ∧
    (panelPosition [("A", [1, 2]), ("B", [3, 6])] 1 2).length =
      (flatRows [("A", [1, 2]), ("B", [3, 6])]).length ∧
    (panelMarketDaily [("A", [1, 2]), ("B", [3, 6])]).length =
      (flatRows [("A", [1, 2]), ("B", [3, 6])]).length ∧
    (panelStrategyDaily [("A", [1, 2]), ("B", [3, 6])] 1 2).length =
      (flatRows [("A", [1, 2]), ("B", [3, 6])]).length ∧
    (panelMarket [("A", [1, 2]), ("B", [3, 6])]).length =
      (flatRows [("A", [1, 2]), ("B", [3, 6])]).length ∧
    (panelStrategy [("A", [1, 2]), ("B", [3, 6])] 1 2).length =
      (flatRows [("A", [1, 2]), ("B", [3, 6])]).length :=
  claimC5 [10, 11, 12] 1 2 AverageKind.simple [("A", [1, 2]), ("B", [3, 6])]
    (by decide) (by decide) (by decide)

theorem claimC6_witness :
    ((computeCrossover [10, 11, 12] 1 2 AverageKind.simple).slowAvg.get
      ⟨0, by decide⟩ = none ↔ 0 < 2 - 1) ∧
    ((computeCrossover [10, 11, 12] 1 2
      AverageKind.exponential).slowAvg.get ⟨0, by decide⟩).isSome = true :=
  claimC6 [10, 11, 12] 1 2 (by decide) 0 (by decide) (by decide)

theorem claimC9_witness :
    (calculate_ema [10, 11, 12] 1 2).signal =
      rawSignal (calculate_ema [10, 11, 12] 1 2).fastAvg
        (calculate_ema [10, 11, 12] 1 2).slowAvg ∧
    ((calculate_ema [10, 11, 12] 1 2).signal.get ⟨0, by decide⟩ = 1 ∨
      (calculate_ema [10, 11, 12] 1 2).signal.get ⟨0, by decide⟩ = -1) ∧
    ((calculate_ema [10, 11, 12] 1 2).position.get ⟨1, by decide⟩ = some 1 ∨
      (calculate_ema [10, 11, 12] 1 2).position.get ⟨1, by decide⟩ =
        some (-1)) :=
  claimC9 [10, 11, 12] 1 2 0 (by decide) (by decide)

theorem claimC1_amended_witness :
    panelMarket [("A", [1, 2]), ("B", [3, 6])] =
      (([("A", [1, 2]), ("B", [3, 6])] : Panel).map
        (fun b => marketCum b.2)).flatten ∧
    panelStrategy [("A", [1, 2]), ("B", [3, 6])] 1 2 =
      (([("A", [1, 2]), ("B", [3, 6])] : Panel).map
        (fun b => strategyCum (calculate_sma b.2 1 2))).flatten ∧
    (marketCum [1, 2]).get ⟨1, by decide⟩ =
      ((pctChange [1, 2]).get ⟨1, by decide⟩).map
        (fun _ => ((((pctChange [1, 2]).take 2).filterMap id).map
          (fun r => 1 + r)).prod) ∧
    (strategyCum (calculate_sma [1, 2] 1 2)).get ⟨1, by decide⟩ =
      ((stratDaily (calculate_sma [1, 2] 1 2)).get ⟨1, by decide⟩).map
        (fun _ =>
          ((((stratDaily (calculate_sma [1, 2] 1 2)).take 2).filterMap
            id).map (fun r => 1 + r)).prod) ∧
    (emaStrategy [1, 2] 1 2).get ⟨1, by decide⟩ =
      ((stratDaily (calculate_ema [1, 2] 1 2)).get ⟨1, by decide⟩).map
        (fun _ =>
          ((((stratDaily (calculate_ema [1, 2] 1 2)).take 2).filterMap
            id).map (fun r => 1 + r)).prod - 1) :=
  claimC1_amended [("A", [1, 2]), ("B", [3, 6])] 1 2 (by decide) [1, 2] 1
    (by decide) (by decide) (by decide) (by decide) (by decide) (by decide)

theorem claimC7_witness :
    panelMarketDaily [("A", [1, 2]), ("B", [3, 6])] =
      (([("A", [1, 2]), ("B", [3, 6])] : Panel).map
        (fun b => panelMarketDaily [(b.1, b.2)])).flatten ∧
    panelMarket [("A", [1, 2]), ("B", [3, 6])] =
      (([("A", [1, 2]), ("B", [3, 6])] : Panel).map
        (fun b => panelMarket [(b.1, b.2)])).flatten ∧
    panelStrategyDaily [("A", [1, 2]), ("B", [3, 6])] 1 2 =
      (([("A", [1, 2]), ("B", [3, 6])] : Panel).map
        (fun b => panelStrategyDaily [(b.1, b.2)] 1 2)).flatten ∧
    panelStrategy [("A", [1, 2]), ("B", [3, 6])] 1 2 =
      (([("A", [1, 2]), ("B", [3, 6])] : Panel).map
        (fun b => panelStrategy [(b.1, b.2)] 1 2)).flatten :=
  claimC7 [("A", [1, 2]), ("B", [3, 6])] 1 2 (by decide)

theorem claimC10_witness :
    panelStrategyDaily [("A", [1, 2]), ("B", [3, 6])] 1 2 =
      (([("A", [1, 2]), ("B", [3, 6])] : Panel).map
        (fun b => stratDaily (calculate_sma b.2 1 2))).flatten ∧
    panelStrategy [("A", [1, 2]), ("B", [3, 6])] 1 2 =
      (([("A", [1, 2]), ("B", [3, 6])] : Panel).map
        (fun b => strategyCum (calculate_sma b.2 1 2))).flatten ∧
    (calculate_sma [1, 2] 1 2).position.get ⟨0, by decide⟩ = none ∧
    (pctChange [1, 2]).get ⟨0, by decide⟩ = none ∧
    (stratDaily (calculate_sma [1, 2] 1 2)).get ⟨0, by decide⟩ = none ∧
    (strategyCum (calculate_sma [1, 2] 1 2)).get ⟨0, by decide⟩ = none ∧
    (calculate_ema [1, 2] 1 2).position.get ⟨0, by decide⟩ = none ∧
    (stratDaily (calculate_ema [1, 2] 1 2)).get ⟨0, by decide⟩ = none ∧
    (emaStrategy [1, 2] 1 2).get ⟨0, by decide⟩ = none :=
  claimC10 [("A", [1, 2]), ("B", [3, 6])] 1 2 (by decide) [1, 2]
    (by decide) (by decide) (by decide) (by decide) (by decide) (by decide)
    (by decide)

end PanelStrategies
